import Mathlib

/-!
Verification of the voice turn-taking engine of the `ageofultron` repository.

The definitions below are a shallow embedding of the voice-input and
text-to-speech services (`SimpleVoiceInput`, `InterruptibleVoiceInput`,
`ReliableVoiceInput`, `VoiceActivityDetection`, `TTSService`).  JavaScript
strings are modelled by Lean `String`, numeric audio levels by `ℚ`, timer
deadlines by `Option ℕ` holding the absolute fire time, and callback
invocations by explicit event lists returned alongside the successor state.
-/

/-- Characters treated as sentence punctuation by the regular expression
`[.!?]+` used in `TTSService.splitIntoSentences`. -/
def isSentPunct (c : Char) : Bool :=
  c = '.' || c = '!' || c = '?'

/-- Whitespace characters, matching the `\s` class and `String.trim` of the
host language on the ASCII range used by the engine. -/
def isJsWs (c : Char) : Bool :=
  c = ' ' || c = '\t' || c = '\n' || c = '\r' || c = Char.ofNat 11 || c = Char.ofNat 12

/-- Remove leading and trailing whitespace, as `String.prototype.trim`. -/
def trimChars (l : List Char) : List Char :=
  ((l.dropWhile isJsWs).reverse.dropWhile isJsWs).reverse

/-- `text.trim()` lifted to Lean strings. -/
def jsTrim (s : String) : String :=
  String.mk (trimChars s.toList)

theorem length_dropWhile_le_self (p : Char → Bool) (l : List Char) :
    (l.dropWhile p).length ≤ l.length := by
  induction l with
  | nil => simp [List.dropWhile]
  | cons c rest ih =>
    by_cases h : p c
    · simp only [List.dropWhile, h]
      exact Nat.le_succ_of_le ih
    · simp [List.dropWhile, h]

theorem trimChars_length_le (l : List Char) : (trimChars l).length ≤ l.length := by
  unfold trimChars
  calc ((l.dropWhile isJsWs).reverse.dropWhile isJsWs).reverse.length
      = ((l.dropWhile isJsWs).reverse.dropWhile isJsWs).length := List.length_reverse _
    _ ≤ (l.dropWhile isJsWs).reverse.length := length_dropWhile_le_self _ _
    _ = (l.dropWhile isJsWs).length := List.length_reverse _
    _ ≤ l.length := length_dropWhile_le_self _ _

theorem string_length_mk (l : List Char) : (String.mk l).length = l.length := rfl

theorem string_length_append (s t : String) : (s ++ t).length = s.length + t.length := by
  cases s with
  | mk ls =>
    cases t with
    | mk lt =>
      show (String.mk (ls ++ lt)).length = ls.length + lt.length
      simp [string_length_mk]

theorem jsTrim_length_le (s : String) : (jsTrim s).length ≤ s.length := by
  cases s with
  | mk l =>
    show (String.mk (trimChars l)).length ≤ l.length
    simpa [string_length_mk] using trimChars_length_le l

/-! ## TTSService (src/unnamed/part_003) -/

/-- Configuration of `TTSService`.  `rate`, `pitch`, `volume` are the speech
synthesis parameters; JavaScript numbers are modelled by `ℚ`. -/
structure TTSConfig where
  enabled : Bool
  rate : ℚ
  pitch : ℚ
  volume : ℚ

namespace TTSService

/-- `setRate(rate)`: `this.config.rate = Math.max(0.1, Math.min(10, rate))`. -/
def setRate (c : TTSConfig) (x : ℚ) : TTSConfig :=
  { c with rate := max (1/10) (min 10 x) }

/-- `setPitch(pitch)`: `this.config.pitch = Math.max(0, Math.min(2, pitch))`. -/
def setPitch (c : TTSConfig) (x : ℚ) : TTSConfig :=
  { c with pitch := max 0 (min 2 x) }

/-- `setVolume(volume)`: `this.config.volume = Math.max(0, Math.min(1, volume))`. -/
def setVolume (c : TTSConfig) (x : ℚ) : TTSConfig :=
  { c with volume := max 0 (min 1 x) }

end TTSService

theorem clamp_mem_range (lo hi x : ℚ) (h : lo ≤ hi) :
    lo ≤ max lo (min hi x) ∧ max lo (min hi x) ≤ hi :=
  ⟨le_max_left _ _, max_le h (min_le_left _ _)⟩

theorem clamp_id (lo hi x : ℚ) (h1 : lo ≤ x) (h2 : x ≤ hi) :
    max lo (min hi x) = x := by
  rw [min_eq_right h2, max_eq_right h1]

/-- C8: the speech-synthesis parameter setters are total (never reject) and
store the clamped value: `setRate` stores `max(0.1, min(10, x))`, `setPitch`
stores `max(0, min(2, x))`, `setVolume` stores `max(0, min(1, x))`; the stored
value always lies in the documented safe range, and an in-range input is
stored unchanged. -/
theorem c8_setters_clamp (c : TTSConfig) (x : ℚ) :
    (TTSService.setRate c x).rate = max (1/10) (min 10 x)
    ∧ 1/10 ≤ (TTSService.setRate c x).rate ∧ (TTSService.setRate c x).rate ≤ 10
    ∧ (1/10 ≤ x → x ≤ 10 → (TTSService.setRate c x).rate = x)
    ∧ (TTSService.setPitch c x).pitch = max 0 (min 2 x)
    ∧ 0 ≤ (TTSService.setPitch c x).pitch ∧ (TTSService.setPitch c x).pitch ≤ 2
    ∧ (0 ≤ x → x ≤ 2 → (TTSService.setPitch c x).pitch = x)
    ∧ (TTSService.setVolume c x).volume = max 0 (min 1 x)
    ∧ 0 ≤ (TTSService.setVolume c x).volume ∧ (TTSService.setVolume c x).volume ≤ 1
    ∧ (0 ≤ x → x ≤ 1 → (TTSService.setVolume c x).volume = x) := by
  refine ⟨rfl, (clamp_mem_range _ _ x (by norm_num)).1, (clamp_mem_range _ _ x (by norm_num)).2,
    fun h1 h2 => clamp_id _ _ x h1 h2,
    rfl, (clamp_mem_range _ _ x (by norm_num)).1, (clamp_mem_range _ _ x (by norm_num)).2,
    fun h1 h2 => clamp_id _ _ x h1 h2,
    rfl, (clamp_mem_range _ _ x (by norm_num)).1, (clamp_mem_range _ _ x (by norm_num)).2,
    fun h1 h2 => clamp_id _ _ x h1 h2⟩

/-- Witness for C8 at the concrete configuration with all parameters `1/2`. -/
theorem c8_setters_clamp_witness :
    ((1:ℚ)/10 ≤ 1/2 ∧ (1:ℚ)/2 ≤ 10 ∧ (0:ℚ) ≤ 1/2 ∧ (1:ℚ)/2 ≤ 2 ∧ (1:ℚ)/2 ≤ 1)
    ∧ (TTSService.setRate ⟨true, 1, 1, 1⟩ (1/2)).rate = 1/2
    ∧ (TTSService.setPitch ⟨true, 1, 1, 1⟩ (1/2)).pitch = 1/2
    ∧ (TTSService.setVolume ⟨true, 1, 1, 1⟩ (1/2)).volume = 1/2 := by
  have h := c8_setters_clamp ⟨true, 1, 1, 1⟩ (1/2)
  exact ⟨⟨by norm_num, by norm_num, by norm_num, by norm_num, by norm_num⟩,
    h.2.2.2.1 (by norm_num) (by norm_num),
    h.2.2.2.2.2.2.2.1 (by norm_num) (by norm_num),
    h.2.2.2.2.2.2.2.2.2.2.2 (by norm_num) (by norm_num)⟩

/-- Scanner mode for `splitIntoSentences`: the split pattern `([.!?]+\s+)` is
matched by a single left-to-right pass.  `norm cur` collects ordinary piece
characters, `punct cur ps` has seen a non-empty punctuation run `ps`, and
`wsp cur ps ws` has additionally seen a non-empty whitespace run `ws`
(all accumulators are kept reversed). -/
inductive SplitMode where
  | norm : List Char → SplitMode
  | punct : List Char → List Char → SplitMode
  | wsp : List Char → List Char → List Char → SplitMode

/-- Emit the pieces still held by the scanner at end of input.  A delimiter
match ending at the end of input is followed by the empty trailing piece,
exactly as `String.prototype.split` produces it. -/
def splitFlush : SplitMode → List (List Char)
  | .norm cur => [cur.reverse]
  | .punct cur ps => [(ps ++ cur).reverse]
  | .wsp cur ps ws => [cur.reverse, ps.reverse ++ ws.reverse, []]

/-- One pass of `text.split(/([.!?]+\s+)/)`: pieces between matches and the
captured delimiters themselves, in order.  A punctuation run is a delimiter
only when at least one whitespace character follows it. -/
def splitSentGo : SplitMode → List Char → List (List Char)
  | m, [] => splitFlush m
  | .norm cur, c :: rest =>
    if isSentPunct c then splitSentGo (.punct cur [c]) rest
    else splitSentGo (.norm (c :: cur)) rest
  | .punct cur ps, c :: rest =>
    if isSentPunct c then splitSentGo (.punct cur (c :: ps)) rest
    else if isJsWs c then splitSentGo (.wsp cur ps [c]) rest
    else splitSentGo (.norm (c :: (ps ++ cur))) rest
  | .wsp cur ps ws, c :: rest =>
    if isJsWs c then splitSentGo (.wsp cur ps (c :: ws)) rest
    else if isSentPunct c then
      cur.reverse :: (ps.reverse ++ ws.reverse) :: splitSentGo (.punct [] [c]) rest
    else
      cur.reverse :: (ps.reverse ++ ws.reverse) :: splitSentGo (.norm [c]) rest

namespace TTSService

/-- `splitIntoSentences(text)`:
`text.split(/([.!?]+\s+)/).filter((part) => part.trim().length > 0)`. -/
def splitIntoSentences (text : String) : List String :=
  ((splitSentGo (.norm []) text.toList).map (fun l => String.mk l)).filter
    (fun p => 0 < (jsTrim p).length)

/-- The string appended to the current chunk by
`currentChunk += (currentChunk ? " " : "") + sentence`. -/
def chunkJoin (cur sentence : String) : String :=
  if cur = "" then sentence else cur ++ " " ++ sentence

/-- One iteration of the `for (const sentence of sentences)` loop in
`speakLongText`: when the pending chunk plus the next sentence would exceed
`chunkSize` the pending chunk is flushed (spoken if its trim is non-empty)
and the sentence starts a new chunk, otherwise the sentence is appended. -/
def chunkStep (chunkSize : ℕ) (acc : String × List String) (sentence : String) :
    String × List String :=
  if chunkSize < acc.1.length + sentence.length then
    (sentence,
      if 0 < (jsTrim acc.1).length then acc.2 ++ [jsTrim acc.1] else acc.2)
  else
    (chunkJoin acc.1 sentence, acc.2)

/-- The chunks spoken by `speakLongText(text, chunkSize)`, in speaking order:
the loop above followed by the final `if (currentChunk.trim()) await
this.speak(currentChunk.trim())`. -/
def speakLongTextChunks (text : String) (chunkSize : ℕ) : List String :=
  let acc := (splitIntoSentences text).foldl (chunkStep chunkSize) ("", [])
  if 0 < (jsTrim acc.1).length then acc.2 ++ [jsTrim acc.1] else acc.2

end TTSService

/-- Observable speech-synthesis actions of `speakLongText`: speaking one chunk
(`await this.speak(...)`) and the inter-chunk pause (`await this.delay(300)`). -/
inductive TTSEvent where
  | speakEv : String → TTSEvent
  | pauseEv : ℕ → TTSEvent
deriving DecidableEq

/-- Text of a speech event, if any. -/
def spokenText : TTSEvent → Option String
  | .speakEv s => some s
  | .pauseEv _ => none

/-- Whether an event is a speech event. -/
def isSpeakEv : TTSEvent → Bool
  | .speakEv _ => true
  | .pauseEv _ => false

namespace TTSService

/-- One loop iteration of `speakLongText`, recording the emitted
speech/pause events instead of only the chunk texts. -/
def chunkStepTrace (chunkSize : ℕ) (acc : String × List TTSEvent) (sentence : String) :
    String × List TTSEvent :=
  if chunkSize < acc.1.length + sentence.length then
    (sentence,
      if 0 < (jsTrim acc.1).length then
        acc.2 ++ [TTSEvent.speakEv (jsTrim acc.1), TTSEvent.pauseEv 300]
      else acc.2)
  else
    (chunkJoin acc.1 sentence, acc.2)

/-- The full ordered event trace of `speakLongText(text, chunkSize)`; the
promise returned by `speakLongText` resolves only after the whole trace has
been played, so the final event is the last chunk's speech. -/
def speakLongTextTrace (text : String) (chunkSize : ℕ) : List TTSEvent :=
  let acc := (splitIntoSentences text).foldl (chunkStepTrace chunkSize) ("", [])
  if 0 < (jsTrim acc.1).length then acc.2 ++ [TTSEvent.speakEv (jsTrim acc.1)] else acc.2

/-- Join a group of sentence parts with single spaces, as the repeated
`currentChunk += (currentChunk ? " " : "") + sentence` does. -/
def joinSpaces : List String → String
  | [] => ""
  | s :: rest => rest.foldl (fun a b => a ++ " " ++ b) s

/-- The chunk a finished group of sentence parts contributes: its
space-join, trimmed; nothing when the trim is empty. -/
def chunkOfGroup (g : List String) : Option String :=
  if 0 < (jsTrim (joinSpaces g)).length then some (jsTrim (joinSpaces g)) else none

/-- The loop of `speakLongText` at the level of sentence groups: the same
guard as `chunkStep`, but the accumulator keeps the sentence parts of the
pending chunk instead of their join. -/
def chunkGroupStep (chunkSize : ℕ) (acc : List String × List (List String))
    (sentence : String) : List String × List (List String) :=
  if chunkSize < (joinSpaces acc.1).length + sentence.length then
    ([sentence], acc.2 ++ [acc.1])
  else
    (acc.1 ++ [sentence], acc.2)

end TTSService

theorem string_ne_empty_of_length_pos {s : String} (h : 0 < s.length) : s ≠ "" := by
  intro he
  rw [he] at h
  exact (by decide : ¬ (0 < ("" : String).length)) h

theorem chunkJoin_length (cur s : String) :
    (TTSService.chunkJoin cur s).length
      = if cur = "" then s.length else cur.length + 1 + s.length := by
  unfold TTSService.chunkJoin
  split
  · rfl
  · have h1 : (" " : String).length = 1 := rfl
    rw [string_length_append, string_length_append, h1]

theorem chunkStep_len_inv (cs : ℕ) :
    ∀ (l : List String) (cur : String) (chs : List String),
      (∀ s ∈ l, s.length ≤ cs) →
      cur.length ≤ cs + 1 →
      (∀ c ∈ chs, c.length ≤ cs + 1) →
      (l.foldl (TTSService.chunkStep cs) (cur, chs)).1.length ≤ cs + 1
      ∧ ∀ c ∈ (l.foldl (TTSService.chunkStep cs) (cur, chs)).2, c.length ≤ cs + 1 := by
  intro l
  induction l with
  | nil =>
    intro cur chs _ hcur hchs
    exact ⟨hcur, hchs⟩
  | cons s rest ih =>
    intro cur chs hl hcur hchs
    have hs : s.length ≤ cs := hl s (List.mem_cons_self _ _)
    have hrest : ∀ x ∈ rest, x.length ≤ cs := fun x hx => hl x (List.mem_cons_of_mem _ hx)
    rw [List.foldl_cons]
    by_cases hg : cs < cur.length + s.length
    · have hstep : TTSService.chunkStep cs (cur, chs) s
          = (s, if 0 < (jsTrim cur).length then chs ++ [jsTrim cur] else chs) := by
        simp [TTSService.chunkStep, hg]
      rw [hstep]
      refine ih _ _ hrest (Nat.le_succ_of_le hs) ?_
      intro c hc
      by_cases ht : 0 < (jsTrim cur).length
      · rw [if_pos ht] at hc
        rcases List.mem_append.1 hc with h | h
        · exact hchs c h
        · rcases List.mem_singleton.1 h with rfl
          exact le_trans (jsTrim_length_le cur) hcur
      · rw [if_neg ht] at hc
        exact hchs c hc
    · have hstep : TTSService.chunkStep cs (cur, chs) s = (TTSService.chunkJoin cur s, chs) := by
        simp [TTSService.chunkStep, hg]
      rw [hstep]
      refine ih _ _ hrest ?_ hchs
      rw [chunkJoin_length]
      split
      · exact Nat.le_succ_of_le hs
      · omega

theorem chunkStepTrace_rel (cs : ℕ) :
    ∀ (l : List String) (cur : String) (evs : List TTSEvent),
      (l.foldl (TTSService.chunkStepTrace cs) (cur, evs)).1
        = (l.foldl (TTSService.chunkStep cs) (cur, evs.filterMap spokenText)).1
      ∧ (l.foldl (TTSService.chunkStepTrace cs) (cur, evs)).2.filterMap spokenText
        = (l.foldl (TTSService.chunkStep cs) (cur, evs.filterMap spokenText)).2 := by
  intro l
  induction l with
  | nil => intro cur evs; exact ⟨rfl, rfl⟩
  | cons s rest ih =>
    intro cur evs
    rw [List.foldl_cons, List.foldl_cons]
    by_cases hg : cs < cur.length + s.length
    · have h1 : TTSService.chunkStepTrace cs (cur, evs) s
          = (s, if 0 < (jsTrim cur).length then
                  evs ++ [TTSEvent.speakEv (jsTrim cur), TTSEvent.pauseEv 300]
                else evs) := by
        simp [TTSService.chunkStepTrace, hg]
      have h2 : TTSService.chunkStep cs (cur, evs.filterMap spokenText) s
          = (s, if 0 < (jsTrim cur).length then
                  evs.filterMap spokenText ++ [jsTrim cur]
                else evs.filterMap spokenText) := by
        simp [TTSService.chunkStep, hg]
      rw [h1, h2]
      by_cases ht : 0 < (jsTrim cur).length
      · rw [if_pos ht, if_pos ht]
        have := ih s (evs ++ [TTSEvent.speakEv (jsTrim cur), TTSEvent.pauseEv 300])
        rwa [List.filterMap_append] at this
      · rw [if_neg ht, if_neg ht]
        exact ih s evs
    · have h1 : TTSService.chunkStepTrace cs (cur, evs) s
          = (TTSService.chunkJoin cur s, evs) := by
        simp [TTSService.chunkStepTrace, hg]
      have h2 : TTSService.chunkStep cs (cur, evs.filterMap spokenText) s
          = (TTSService.chunkJoin cur s, evs.filterMap spokenText) := by
        simp [TTSService.chunkStep, hg]
      rw [h1, h2]
      exact ih _ evs

/-- Two consecutive trace events are never both speech events: a pause
separates any two consecutively spoken chunks. -/
def noAdjSpeak (a b : TTSEvent) : Prop :=
  isSpeakEv a = false ∨ isSpeakEv b = false

theorem chunkStepTrace_chain (cs : ℕ) :
    ∀ (l : List String) (cur : String) (evs : List TTSEvent),
      List.Chain' noAdjSpeak evs →
      (∀ x, evs.getLast? = some x → isSpeakEv x = false) →
      List.Chain' noAdjSpeak (l.foldl (TTSService.chunkStepTrace cs) (cur, evs)).2
      ∧ (∀ x, (l.foldl (TTSService.chunkStepTrace cs) (cur, evs)).2.getLast? = some x →
          isSpeakEv x = false) := by
  intro l
  induction l with
  | nil => intro cur evs hch hlast; exact ⟨hch, hlast⟩
  | cons s rest ih =>
    intro cur evs hch hlast
    rw [List.foldl_cons]
    by_cases hg : cs < cur.length + s.length
    · have h1 : TTSService.chunkStepTrace cs (cur, evs) s
          = (s, if 0 < (jsTrim cur).length then
                  evs ++ [TTSEvent.speakEv (jsTrim cur), TTSEvent.pauseEv 300]
                else evs) := by
        simp [TTSService.chunkStepTrace, hg]
      rw [h1]
      by_cases ht : 0 < (jsTrim cur).length
      · rw [if_pos ht]
        refine ih s _ ?_ ?_
        · rw [List.chain'_append]
          refine ⟨hch, ?_, ?_⟩
          · exact List.chain'_cons.2 ⟨Or.inr rfl, List.chain'_singleton _⟩
          · intro x hx y hy
            left
            exact hlast x hx
        · intro x hx
          rw [List.getLast?_append] at hx
          have hx2 : some (TTSEvent.pauseEv 300) = some x := hx
          cases Option.some.inj hx2
          rfl
      · rw [if_neg ht]
        exact ih s evs hch hlast
    · have h1 : TTSService.chunkStepTrace cs (cur, evs) s
          = (TTSService.chunkJoin cur s, evs) := by
        simp [TTSService.chunkStepTrace, hg]
      rw [h1]
      exact ih _ evs hch hlast

theorem chunkJoin_ne_empty (cur s : String) (hs : s ≠ "") :
    TTSService.chunkJoin cur s ≠ "" := by
  unfold TTSService.chunkJoin
  split
  · exact hs
  · apply string_ne_empty_of_length_pos
    rw [string_length_append, string_length_append]
    have h1 : (" " : String).length = 1 := rfl
    rw [h1]
    omega

theorem joinSpaces_append_singleton (g : List String) (s : String)
    (hg : TTSService.joinSpaces g = "" → g = []) :
    TTSService.joinSpaces (g ++ [s]) = TTSService.chunkJoin (TTSService.joinSpaces g) s := by
  cases g with
  | nil => simp [TTSService.joinSpaces, TTSService.chunkJoin]
  | cons a rest =>
    have hne : TTSService.joinSpaces (a :: rest) ≠ "" := by
      intro h
      exact absurd (hg h) (by simp)
    show (rest ++ [s]).foldl (fun a b => a ++ " " ++ b) a
        = TTSService.chunkJoin (TTSService.joinSpaces (a :: rest)) s
    rw [List.foldl_append]
    show TTSService.joinSpaces (a :: rest) ++ " " ++ s = _
    unfold TTSService.chunkJoin
    rw [if_neg hne]

theorem chunkGroupStep_rel (cs : ℕ) :
    ∀ (l : List String) (gcur : List String) (grs : List (List String)),
      (∀ s ∈ l, s ≠ "") →
      (TTSService.joinSpaces gcur = "" → gcur = []) →
      ((l.foldl (TTSService.chunkStep cs)
          (TTSService.joinSpaces gcur, grs.filterMap TTSService.chunkOfGroup)).1
        = TTSService.joinSpaces (l.foldl (TTSService.chunkGroupStep cs) (gcur, grs)).1)
      ∧ ((l.foldl (TTSService.chunkStep cs)
          (TTSService.joinSpaces gcur, grs.filterMap TTSService.chunkOfGroup)).2
        = (l.foldl (TTSService.chunkGroupStep cs) (gcur, grs)).2.filterMap
            TTSService.chunkOfGroup)
      ∧ ((l.foldl (TTSService.chunkGroupStep cs) (gcur, grs)).2.join
          ++ (l.foldl (TTSService.chunkGroupStep cs) (gcur, grs)).1
        = grs.join ++ gcur ++ l)
      ∧ (TTSService.joinSpaces (l.foldl (TTSService.chunkGroupStep cs) (gcur, grs)).1 = ""
          → (l.foldl (TTSService.chunkGroupStep cs) (gcur, grs)).1 = []) := by
  intro l
  induction l with
  | nil =>
    intro gcur grs _ hg
    exact ⟨rfl, rfl, by simp, hg⟩
  | cons s rest ih =>
    intro gcur grs hl hg
    have hs : s ≠ "" := hl s (List.mem_cons_self _ _)
    have hrest : ∀ x ∈ rest, x ≠ "" := fun x hx => hl x (List.mem_cons_of_mem _ hx)
    rw [List.foldl_cons, List.foldl_cons]
    by_cases hguard : cs < (TTSService.joinSpaces gcur).length + s.length
    · have h1 : TTSService.chunkStep cs
            (TTSService.joinSpaces gcur, grs.filterMap TTSService.chunkOfGroup) s
          = (s, (grs ++ [gcur]).filterMap TTSService.chunkOfGroup) := by
        simp only [TTSService.chunkStep, hguard, if_pos]
        rw [List.filterMap_append]
        by_cases ht : 0 < (jsTrim (TTSService.joinSpaces gcur)).length
        · simp [TTSService.chunkOfGroup, ht]
        · simp [TTSService.chunkOfGroup, ht]
      have h2 : TTSService.chunkGroupStep cs (gcur, grs) s = ([s], grs ++ [gcur]) := by
        simp [TTSService.chunkGroupStep, hguard]
      rw [h1, h2]
      have hjs : TTSService.joinSpaces [s] = s := rfl
      have hside : TTSService.joinSpaces [s] = "" → [s] = [] := by
        rw [hjs]
        intro h
        exact absurd h hs
      have := ih [s] (grs ++ [gcur]) hrest hside
      rw [hjs] at this
      refine ⟨this.1, this.2.1, ?_, this.2.2.2⟩
      rw [this.2.2.1]
      simp [List.join_append]
    · have h1 : TTSService.chunkStep cs
            (TTSService.joinSpaces gcur, grs.filterMap TTSService.chunkOfGroup) s
          = (TTSService.chunkJoin (TTSService.joinSpaces gcur) s,
             grs.filterMap TTSService.chunkOfGroup) := by
        simp [TTSService.chunkStep, hguard]
      have h2 : TTSService.chunkGroupStep cs (gcur, grs) s = (gcur ++ [s], grs) := by
        simp [TTSService.chunkGroupStep, hguard]
      rw [h1, h2]
      have hjoin := joinSpaces_append_singleton gcur s hg
      have hside : TTSService.joinSpaces (gcur ++ [s]) = "" → gcur ++ [s] = [] := by
        rw [hjoin]
        intro h
        exact absurd h (chunkJoin_ne_empty _ _ hs)
      have := ih (gcur ++ [s]) grs hrest hside
      rw [hjoin] at this
      refine ⟨this.1, this.2.1, ?_, this.2.2.2⟩
      rw [this.2.2.1]
      simp

theorem splitIntoSentences_ne_empty (text : String) :
    ∀ s ∈ TTSService.splitIntoSentences text, s ≠ "" := by
  intro s hs he
  unfold TTSService.splitIntoSentences at hs
  rw [List.mem_filter] at hs
  have h2 := of_decide_eq_true hs.2
  subst he
  exact (by decide : ¬ (0 < (jsTrim "").length)) h2

/-- C6 (amended): `speakLongText(text, chunkSize)` splits only at sentence
boundaries — the spoken chunks are exactly the trimmed space-joins of
contiguous groups of sentence parts that, in order, cover the whole sentence
list; when no sentence part alone exceeds `chunkSize`, every chunk is at most
`chunkSize + 1` characters (the guard ignores the joining space, so a chunk
may exceed `chunkSize` by exactly one character); the chunks are spoken
strictly in original order, a 300 ms pause separates any two consecutively
spoken chunks, and the trace ends with the last chunk so the returned promise
resolves only after the final chunk has been spoken. -/
theorem c6_speakChunked (text : String) (chunkSize : ℕ) :
    (∃ groups : List (List String),
        groups.join = TTSService.splitIntoSentences text
        ∧ TTSService.speakLongTextChunks text chunkSize
            = groups.filterMap TTSService.chunkOfGroup)
    ∧ ((∀ s ∈ TTSService.splitIntoSentences text, s.length ≤ chunkSize) →
        ∀ c ∈ TTSService.speakLongTextChunks text chunkSize, c.length ≤ chunkSize + 1)
    ∧ (TTSService.speakLongTextTrace text chunkSize).filterMap spokenText
        = TTSService.speakLongTextChunks text chunkSize
    ∧ List.Chain' noAdjSpeak (TTSService.speakLongTextTrace text chunkSize) := by
  set sents := TTSService.splitIntoSentences text with hsents
  set A := List.foldl (TTSService.chunkStep chunkSize) ("", []) sents with hA
  set T := List.foldl (TTSService.chunkStepTrace chunkSize) ("", []) sents with hT
  have hchunks : TTSService.speakLongTextChunks text chunkSize
      = if 0 < (jsTrim A.1).length then A.2 ++ [jsTrim A.1] else A.2 := rfl
  have htrace : TTSService.speakLongTextTrace text chunkSize
      = if 0 < (jsTrim T.1).length then T.2 ++ [TTSEvent.speakEv (jsTrim T.1)] else T.2 := rfl
  have hrel := chunkGroupStep_rel chunkSize sents [] [] (splitIntoSentences_ne_empty text)
    (fun _ => rfl)
  have e1 : TTSService.joinSpaces ([] : List String) = "" := rfl
  rw [e1, List.filterMap_nil] at hrel
  set R := List.foldl (TTSService.chunkGroupStep chunkSize) ([], []) sents with hR
  obtain ⟨hr1, hr2, hr3, _⟩ := hrel
  have hr3s : R.2.join ++ R.1 = sents := by simpa using hr3
  have htr := chunkStepTrace_rel chunkSize sents "" []
  rw [List.filterMap_nil] at htr
  refine ⟨⟨R.2 ++ [R.1], ?_, ?_⟩, ?_, ?_, ?_⟩
  · simpa [List.join_append] using hr3s
  · rw [hchunks, List.filterMap_append, hr1, hr2]
    by_cases ht : 0 < (jsTrim (TTSService.joinSpaces R.1)).length
    · simp [TTSService.chunkOfGroup, ht]
    · simp [TTSService.chunkOfGroup, ht]
  · intro hlen c hc
    have hinv := chunkStep_len_inv chunkSize sents "" [] hlen
      (by rw [(rfl : ("" : String).length = 0)]; exact Nat.zero_le _)
      (fun c hc => absurd hc (List.not_mem_nil c))
    rw [hchunks] at hc
    by_cases ht : 0 < (jsTrim A.1).length
    · rw [if_pos ht] at hc
      rcases List.mem_append.1 hc with h | h
      · exact hinv.2 c h
      · rcases List.mem_singleton.1 h with rfl
        exact le_trans (jsTrim_length_le _) hinv.1
    · rw [if_neg ht] at hc
      exact hinv.2 c hc
  · rw [hchunks, htrace, htr.1]
    by_cases ht : 0 < (jsTrim A.1).length
    · rw [if_pos ht, if_pos ht, List.filterMap_append, htr.2]
      rfl
    · rw [if_neg ht, if_neg ht, htr.2]
  · have hch := chunkStepTrace_chain chunkSize sents "" [] List.chain'_nil
      (by intro x hx; simp at hx)
    rw [htrace]
    by_cases ht : 0 < (jsTrim T.1).length
    · rw [if_pos ht]
      rw [List.chain'_append]
      refine ⟨hch.1, List.chain'_singleton _, ?_⟩
      intro x hx y _
      exact Or.inl (hch.2 x hx)
    · rw [if_neg ht]
      exact hch.1

/-- Counterexample to C6 as stated: with
`text = "aaaaaaaaaaaaaa. bbbbbbbbbbbbb"` and `chunkSize = 30`, no sentence
part exceeds 30 characters, yet `speakLongText` emits a 31-character chunk —
the guard `currentChunk.length + sentence.length > chunkSize` does not count
the space inserted by `currentChunk += " " + sentence`. -/
theorem c6_speakChunked_counterexample :
    (∀ s ∈ TTSService.splitIntoSentences "aaaaaaaaaaaaaa. bbbbbbbbbbbbb", s.length ≤ 30)
    ∧ ∃ c ∈ TTSService.speakLongTextChunks "aaaaaaaaaaaaaa. bbbbbbbbbbbbb" 30,
        30 < c.length := by
  decide

/-- Witness for C6 at `text = "Hello. World."`, `chunkSize = 30`: every
sentence part is within the chunk size, so by `c6_speakChunked` every chunk
is at most 31 characters. -/
theorem c6_speakChunked_witness :
    (∀ s ∈ TTSService.splitIntoSentences "Hello. World.", s.length ≤ 30)
    ∧ ∀ c ∈ TTSService.speakLongTextChunks "Hello. World." 30, c.length ≤ 31 :=
  ⟨by decide, (c6_speakChunked "Hello. World." 30).2.1 (by decide)⟩

/-! ## SimpleVoiceInput (src/AITutor/Services/SimpleVoiceInput.ts) -/

/-- Configuration of `SimpleVoiceInput`: overall listening timeout and the
silence timeout, in milliseconds. -/
structure SimpleVoiceConfig where
  language : String
  timeout : ℕ
  silenceTimeout : ℕ

/-- Callback invocations and recognizer commands issued by
`SimpleVoiceInput`, in issue order. -/
inductive SVEvent where
  | startEv : SVEvent
  | transcriptEv : String → Bool → SVEvent
  | completeEv : String → SVEvent
  | stopEv : SVEvent
  | errorEv : String → SVEvent
  | recStop : SVEvent
  | recAbort : SVEvent
deriving DecidableEq

/-- Mutable state of a `SimpleVoiceInput` instance.  Timers are modelled by
the absolute time at which they would fire (`none` = no timer pending). -/
structure SimpleVoiceState where
  isListening : Bool
  finalTranscript : String
  timeoutDeadline : Option ℕ
  silenceDeadline : Option ℕ
deriving DecidableEq

/-- Whether an event is the `onComplete` (utterance finalized) callback. -/
def isCompleteEv : SVEvent → Bool
  | .completeEv _ => true
  | _ => false

namespace SimpleVoiceInput

/-- `resetSilenceTimer()`: clear any pending silence timer and schedule a
new one to fire `silenceTimeout` after the current time `now`. -/
def resetSilenceTimer (cfg : SimpleVoiceConfig) (now : ℕ) (s : SimpleVoiceState) :
    SimpleVoiceState :=
  { s with silenceDeadline := some (now + cfg.silenceTimeout) }

/-- `clearTimers()`: cancel both the overall timeout and the silence timer. -/
def clearTimers (s : SimpleVoiceState) : SimpleVoiceState :=
  { s with timeoutDeadline := none, silenceDeadline := none }

/-- `complete()`: the single finalize path, reached from the silence timer,
the overall timeout (via `stop()`), the platform `onend` event, and the
long-transcript shortcut.  It is guarded by `isListening`; the completion
callback fires only when the trimmed transcript is non-empty. -/
def complete (s : SimpleVoiceState) : SimpleVoiceState × List SVEvent :=
  if s.isListening = false then (s, [])
  else
    (clearTimers { s with isListening := false },
      [SVEvent.recStop]
        ++ (if jsTrim s.finalTranscript ≠ "" then
              [SVEvent.completeEv (jsTrim s.finalTranscript)]
            else [])
        ++ [SVEvent.stopEv])

/-- Concatenated newly-final transcripts of one `onresult` event slice
(`event.results[i][0].transcript` for the entries with `isFinal`). -/
def newFinalOf (rs : List (String × Bool)) : String :=
  rs.foldl (fun a r => if r.2 then a ++ r.1 else a) ""

/-- Concatenated interim transcripts of one `onresult` event slice. -/
def interimOf (rs : List (String × Bool)) : String :=
  rs.foldl (fun a r => if r.2 then a else a ++ r.1) ""

/-- State after the transcript-accumulation step of `recognition.onresult`:
the newly final text is appended when present. -/
def resultS1 (s : SimpleVoiceState) (rs : List (String × Bool)) : SimpleVoiceState :=
  if newFinalOf rs ≠ "" then
    { s with finalTranscript := s.finalTranscript ++ newFinalOf rs }
  else s

/-- State after the silence-timer step of `recognition.onresult`: the
silence timer is reset when the event carried any new text. -/
def resultS2 (cfg : SimpleVoiceConfig) (now : ℕ) (s : SimpleVoiceState)
    (rs : List (String × Bool)) : SimpleVoiceState :=
  if newFinalOf rs ≠ "" ∨ interimOf rs ≠ "" then
    resetSilenceTimer cfg now (resultS1 s rs)
  else resultS1 s rs

/-- `recognition.onresult`: append newly final text, report the current
transcript, reset the silence timer when the event carried any text, and
auto-complete when the accumulated trimmed final transcript is longer than
five characters. -/
def onresult (cfg : SimpleVoiceConfig) (now : ℕ) (s : SimpleVoiceState)
    (rs : List (String × Bool)) : SimpleVoiceState × List SVEvent :=
  let evs := [SVEvent.transcriptEv
    (jsTrim ((resultS1 s rs).finalTranscript ++ interimOf rs)) (newFinalOf rs ≠ "")]
  if 5 < (jsTrim (resultS2 cfg now s rs).finalTranscript).length then
    ((complete (resultS2 cfg now s rs)).1, evs ++ (complete (resultS2 cfg now s rs)).2)
  else (resultS2 cfg now s rs, evs)

/-- Several finalize triggers for the same turn arriving one after another,
each funnelled into `complete()`. -/
def iterComplete : ℕ → SimpleVoiceState → SimpleVoiceState × List SVEvent
  | 0, s => (s, [])
  | n + 1, s =>
    ((iterComplete n (complete s).1).1, (complete s).2 ++ (iterComplete n (complete s).1).2)

end SimpleVoiceInput

theorem complete_of_not_listening (s : SimpleVoiceState) (h : s.isListening = false) :
    SimpleVoiceInput.complete s = (s, []) := by
  unfold SimpleVoiceInput.complete
  rw [if_pos h]

theorem complete_fst_not_listening (s : SimpleVoiceState) :
    (SimpleVoiceInput.complete s).1.isListening = false := by
  unfold SimpleVoiceInput.complete
  by_cases h : s.isListening = false
  · rw [if_pos h]
    exact h
  · rw [if_neg h]
    rfl

theorem complete_idem (s : SimpleVoiceState) :
    SimpleVoiceInput.complete (SimpleVoiceInput.complete s).1
      = ((SimpleVoiceInput.complete s).1, []) :=
  complete_of_not_listening _ (complete_fst_not_listening s)

theorem iterComplete_succ : ∀ (n : ℕ) (s : SimpleVoiceState),
    SimpleVoiceInput.iterComplete (n + 1) s
      = ((SimpleVoiceInput.complete s).1, (SimpleVoiceInput.complete s).2) := by
  intro n
  induction n with
  | zero =>
    intro s
    simp [SimpleVoiceInput.iterComplete]
  | succ m ih =>
    intro s
    have h1 : SimpleVoiceInput.iterComplete (m + 1 + 1) s
        = ((SimpleVoiceInput.iterComplete (m + 1) (SimpleVoiceInput.complete s).1).1,
           (SimpleVoiceInput.complete s).2
             ++ (SimpleVoiceInput.iterComplete (m + 1) (SimpleVoiceInput.complete s).1).2) := rfl
    rw [h1, ih (SimpleVoiceInput.complete s).1, complete_idem]
    simp

theorem complete_count_le_one (s : SimpleVoiceState) :
    ((SimpleVoiceInput.complete s).2.countP isCompleteEv) ≤ 1 := by
  unfold SimpleVoiceInput.complete
  by_cases h : s.isListening = false
  · rw [if_pos h]
    simp
  · rw [if_neg h]
    by_cases ht : jsTrim s.finalTranscript ≠ ""
    · rw [if_pos ht]
      simp [List.countP_cons, List.countP_append, isCompleteEv]
    · rw [if_neg ht]
      simp [List.countP_cons, List.countP_append, isCompleteEv]

/-! ## InterruptibleVoiceInput (src/AITutor/Services/InterruptibleVoiceInput.ts) -/

/-- Configuration of `InterruptibleVoiceInput`.  Audio levels are normalized
rationals in `[0, 1]`. -/
structure InterruptibleVoiceConfig where
  language : String
  silenceTimeout : ℕ
  voiceThreshold : ℚ
  interruptSensitivity : ℚ

/-- The `onStatusChange` status values of `InterruptibleVoiceInput`. -/
inductive IStatus where
  | idle : IStatus
  | detecting : IStatus
  | listening : IStatus
  | processing : IStatus
deriving DecidableEq

/-- Callback invocations, recognizer commands and speech-synthesis commands
issued by the interruptible engine, in issue order.  `ttsCancel` is the
`TTSService.stop()` performed inside the `onUserSpeakingDetected` wiring. -/
inductive IEvent where
  | userSpeakingDetected : IEvent
  | ttsCancel : IEvent
  | userSpeechStart : IEvent
  | userSpeechEnd : String → IEvent
  | statusChange : IStatus → IEvent
  | recStart : IEvent
  | recStop : IEvent
  | recAbort : IEvent
deriving DecidableEq

/-- Mutable state of an `InterruptibleVoiceInput` instance. -/
structure IState where
  isActive : Bool
  isListening : Bool
  isProcessing : Bool
  currentStatus : IStatus
  finalTranscript : String
  silenceDeadline : Option ℕ
deriving DecidableEq

/-- Whether an event is the `onUserSpeechEnd` (utterance finalized) callback. -/
def isSpeechEndEv : IEvent → Bool
  | .userSpeechEnd _ => true
  | _ => false

namespace InterruptibleVoiceInput

/-- `updateStatus(status)`: store and emit the status only when it differs
from the current one. -/
def updateStatus (s : IState) (st : IStatus) : IState × List IEvent :=
  if s.currentStatus ≠ st then
    ({ s with currentStatus := st }, [IEvent.statusChange st])
  else (s, [])

/-- `resetSilenceTimer()`: clear any pending silence timer and schedule a
new one to fire `silenceTimeout` after the current time `now`. -/
def resetSilenceTimer (cfg : InterruptibleVoiceConfig) (now : ℕ) (s : IState) : IState :=
  { s with silenceDeadline := some (now + cfg.silenceTimeout) }

/-- `recognition.onresult`: append newly final text and reset the silence
timer unconditionally. -/
def onresult (cfg : InterruptibleVoiceConfig) (now : ℕ) (s : IState)
    (rs : List (String × Bool)) : IState :=
  let newFinal := SimpleVoiceInput.newFinalOf rs
  let s1 := if newFinal ≠ "" then
              { s with finalTranscript := s.finalTranscript ++ newFinal }
            else s
  resetSilenceTimer cfg now s1

/-- `processResult()`: the single finalize path, reached from the silence
timer and from the platform `onend` event.  Guarded by `isProcessing`; the
`onUserSpeechEnd` callback fires only when the trimmed transcript is
non-empty. -/
def processResult (s : IState) : IState × List IEvent :=
  if s.isProcessing then (s, [])
  else
    let s1 := { s with isProcessing := true, isListening := false }
    let r := updateStatus s1 IStatus.processing
    ({ r.1 with silenceDeadline := none },
      r.2 ++ [IEvent.recStop]
        ++ (if jsTrim s.finalTranscript ≠ "" then
              [IEvent.userSpeechEnd (jsTrim s.finalTranscript)]
            else []))

/-- Several finalize triggers for the same turn arriving one after another,
each funnelled into `processResult()`. -/
def iterProcessResult : ℕ → IState → IState × List IEvent
  | 0, s => (s, [])
  | n + 1, s =>
    ((iterProcessResult n (processResult s).1).1,
     (processResult s).2 ++ (iterProcessResult n (processResult s).1).2)

/-- `startUserListening()`: emit `onUserSpeechStart`, start the platform
recognizer and arm the silence timer; a no-op while already listening. -/
def startUserListening (cfg : InterruptibleVoiceConfig) (now : ℕ) (s : IState) :
    IState × List IEvent :=
  if s.isListening then (s, [])
  else (resetSilenceTimer cfg now s, [IEvent.userSpeechStart, IEvent.recStart])

end InterruptibleVoiceInput

theorem processResult_of_processing (s : IState) (h : s.isProcessing = true) :
    InterruptibleVoiceInput.processResult s = (s, []) := by
  unfold InterruptibleVoiceInput.processResult
  rw [if_pos h]

theorem processResult_fst_processing (s : IState) :
    (InterruptibleVoiceInput.processResult s).1.isProcessing = true := by
  simp only [InterruptibleVoiceInput.processResult, InterruptibleVoiceInput.updateStatus]
  split
  · next h => exact h
  · split <;> rfl

theorem processResult_idem (s : IState) :
    InterruptibleVoiceInput.processResult (InterruptibleVoiceInput.processResult s).1
      = ((InterruptibleVoiceInput.processResult s).1, []) :=
  processResult_of_processing _ (processResult_fst_processing s)

theorem iterProcessResult_succ : ∀ (n : ℕ) (s : IState),
    InterruptibleVoiceInput.iterProcessResult (n + 1) s
      = ((InterruptibleVoiceInput.processResult s).1,
         (InterruptibleVoiceInput.processResult s).2) := by
  intro n
  induction n with
  | zero =>
    intro s
    simp [InterruptibleVoiceInput.iterProcessResult]
  | succ m ih =>
    intro s
    have h1 : InterruptibleVoiceInput.iterProcessResult (m + 1 + 1) s
        = ((InterruptibleVoiceInput.iterProcessResult (m + 1)
              (InterruptibleVoiceInput.processResult s).1).1,
           (InterruptibleVoiceInput.processResult s).2
             ++ (InterruptibleVoiceInput.iterProcessResult (m + 1)
                  (InterruptibleVoiceInput.processResult s).1).2) := rfl
    rw [h1, ih (InterruptibleVoiceInput.processResult s).1, processResult_idem]
    simp

theorem processResult_count_le_one (s : IState) :
    ((InterruptibleVoiceInput.processResult s).2.countP isSpeechEndEv) ≤ 1 := by
  simp only [InterruptibleVoiceInput.processResult, InterruptibleVoiceInput.updateStatus]
  split
  · simp
  · split <;> split <;>
      simp [List.countP_cons, List.countP_append, isSpeechEndEv]

/-- C1: for every turn, no matter how many finalize triggers (silence
timeout, maximum-duration timeout, platform completion) arrive and in which
order, the finalize path runs exactly once: iterating the finalize entry
point any number of further times after the first leaves the state unchanged
and emits no further events, and a single finalize emits at most one
utterance-finalized callback.  This holds for `SimpleVoiceInput.complete`
and `InterruptibleVoiceInput.processResult` alike. -/
theorem c1_finalize_idempotent (n : ℕ) (s : SimpleVoiceState) (t : IState) :
    SimpleVoiceInput.iterComplete (n + 1) s = SimpleVoiceInput.complete s
    ∧ ((SimpleVoiceInput.complete s).2.countP isCompleteEv) ≤ 1
    ∧ InterruptibleVoiceInput.iterProcessResult (n + 1) t
        = InterruptibleVoiceInput.processResult t
    ∧ ((InterruptibleVoiceInput.processResult t).2.countP isSpeechEndEv) ≤ 1 :=
  ⟨(iterComplete_succ n s).trans rfl,
    complete_count_le_one s,
    (iterProcessResult_succ n t).trans rfl,
    processResult_count_le_one t⟩

theorem complete_events_of_listening (s : SimpleVoiceState) (hs : s.isListening = true) :
    (SimpleVoiceInput.complete s).2
      = [SVEvent.recStop]
        ++ (if jsTrim s.finalTranscript ≠ "" then
              [SVEvent.completeEv (jsTrim s.finalTranscript)]
            else [])
        ++ [SVEvent.stopEv] := by
  unfold SimpleVoiceInput.complete
  rw [if_neg (by simp [hs])]

theorem updateStatus_count_speechEnd (x : IState) (st : IStatus) :
    ((InterruptibleVoiceInput.updateStatus x st).2.countP isSpeechEndEv) = 0 := by
  unfold InterruptibleVoiceInput.updateStatus
  split <;> simp [isSpeechEndEv]

theorem processResult_events_of_not_processing (t : IState) (ht : t.isProcessing = false) :
    (InterruptibleVoiceInput.processResult t).2
      = (InterruptibleVoiceInput.updateStatus
            { t with isProcessing := true, isListening := false } IStatus.processing).2
        ++ [IEvent.recStop]
        ++ (if jsTrim t.finalTranscript ≠ "" then
              [IEvent.userSpeechEnd (jsTrim t.finalTranscript)]
            else []) := by
  simp only [InterruptibleVoiceInput.processResult]
  rw [if_neg (by simp [ht])]

/-- C2 (amended): when a session ends naturally, the completion callback is
invoked exactly once with the accumulated trimmed final text when that text
is non-empty; when the accumulated text is empty the completion callback is
skipped, not invoked with the empty string (`onStop`/the status change still
fire).  This holds for `SimpleVoiceInput.complete` and
`InterruptibleVoiceInput.processResult` alike. -/
theorem c2_complete_skips_empty (s : SimpleVoiceState) (t : IState)
    (hs : s.isListening = true) (ht : t.isProcessing = false) :
    ((SimpleVoiceInput.complete s).2.countP isCompleteEv
        = if jsTrim s.finalTranscript ≠ "" then 1 else 0)
    ∧ (jsTrim s.finalTranscript ≠ "" →
        SVEvent.completeEv (jsTrim s.finalTranscript) ∈ (SimpleVoiceInput.complete s).2)
    ∧ ((InterruptibleVoiceInput.processResult t).2.countP isSpeechEndEv
        = if jsTrim t.finalTranscript ≠ "" then 1 else 0)
    ∧ (jsTrim t.finalTranscript ≠ "" →
        IEvent.userSpeechEnd (jsTrim t.finalTranscript)
          ∈ (InterruptibleVoiceInput.processResult t).2) := by
  rw [complete_events_of_listening s hs, processResult_events_of_not_processing t ht]
  refine ⟨?_, ?_, ?_, ?_⟩
  · by_cases h : jsTrim s.finalTranscript ≠ ""
    · rw [if_pos h, if_pos h]
      simp [List.countP_append, List.countP_cons, isCompleteEv]
    · rw [if_neg h, if_neg h]
      simp [List.countP_append, List.countP_cons, isCompleteEv]
  · intro h
    rw [if_pos h]
    simp
  · by_cases h : jsTrim t.finalTranscript ≠ ""
    · rw [if_pos h, if_pos h]
      simp [List.countP_append, List.countP_cons, isSpeechEndEv,
        updateStatus_count_speechEnd]
    · rw [if_neg h, if_neg h]
      simp [List.countP_append, List.countP_cons, isSpeechEndEv,
        updateStatus_count_speechEnd]
  · intro h
    rw [if_pos h]
    simp

/-- Counterexample to C2 as stated: a session that ends naturally while the
accumulated final transcript is empty does not invoke the completion
callback with the empty string — it skips it (`complete` emits only the
recognizer stop and the `onStop` callback). -/
theorem c2_complete_skips_empty_counterexample :
    (SimpleVoiceInput.complete
        { isListening := true, finalTranscript := "", timeoutDeadline := some 8000,
          silenceDeadline := some 2000 }).2 = [SVEvent.recStop, SVEvent.stopEv]
    ∧ ((SimpleVoiceInput.complete
        { isListening := true, finalTranscript := "", timeoutDeadline := some 8000,
          silenceDeadline := some 2000 }).2.countP isCompleteEv = 0) := by
  decide

/-- Witness for C2 (amended) at a listening session whose accumulated
transcript is `"hello"`. -/
theorem c2_complete_skips_empty_witness :
    ((SimpleVoiceInput.complete
        { isListening := true, finalTranscript := "hello", timeoutDeadline := none,
          silenceDeadline := none }).2.countP isCompleteEv
      = if jsTrim "hello" ≠ "" then 1 else 0)
    ∧ (jsTrim "hello" ≠ "" →
        SVEvent.completeEv (jsTrim "hello")
          ∈ (SimpleVoiceInput.complete
              { isListening := true, finalTranscript := "hello", timeoutDeadline := none,
                silenceDeadline := none }).2)
    ∧ ((InterruptibleVoiceInput.processResult
        { isActive := true, isListening := true, isProcessing := false,
          currentStatus := IStatus.listening, finalTranscript := "hello",
          silenceDeadline := some 2000 }).2.countP isSpeechEndEv
      = if jsTrim "hello" ≠ "" then 1 else 0)
    ∧ (jsTrim "hello" ≠ "" →
        IEvent.userSpeechEnd (jsTrim "hello")
          ∈ (InterruptibleVoiceInput.processResult
              { isActive := true, isListening := true, isProcessing := false,
                currentStatus := IStatus.listening, finalTranscript := "hello",
                silenceDeadline := some 2000 }).2) :=
  c2_complete_skips_empty
    { isListening := true, finalTranscript := "hello", timeoutDeadline := none,
      silenceDeadline := none }
    { isActive := true, isListening := true, isProcessing := false,
      currentStatus := IStatus.listening, finalTranscript := "hello",
      silenceDeadline := some 2000 }
    rfl rfl

/-- The accumulated final transcript after one `onresult` event: the newly
final text is appended when present. -/
def updatedFinal (s : SimpleVoiceState) (rs : List (String × Bool)) : String :=
  if SimpleVoiceInput.newFinalOf rs ≠ "" then
    s.finalTranscript ++ SimpleVoiceInput.newFinalOf rs
  else s.finalTranscript

theorem resultS2_finalTranscript (cfg : SimpleVoiceConfig) (now : ℕ)
    (s : SimpleVoiceState) (rs : List (String × Bool)) :
    (SimpleVoiceInput.resultS2 cfg now s rs).finalTranscript = updatedFinal s rs := by
  unfold SimpleVoiceInput.resultS2 SimpleVoiceInput.resultS1 updatedFinal
  split
  · split <;> rfl
  · split <;> rfl

theorem resultS2_isListening (cfg : SimpleVoiceConfig) (now : ℕ)
    (s : SimpleVoiceState) (rs : List (String × Bool)) :
    (SimpleVoiceInput.resultS2 cfg now s rs).isListening = s.isListening := by
  unfold SimpleVoiceInput.resultS2 SimpleVoiceInput.resultS1
  split
  · split <;> rfl
  · split <;> rfl

theorem onresult_autocomplete_eq (cfg : SimpleVoiceConfig) (now : ℕ)
    (s : SimpleVoiceState) (rs : List (String × Bool))
    (hlen : 5 < (jsTrim (updatedFinal s rs)).length) :
    SimpleVoiceInput.onresult cfg now s rs
      = ((SimpleVoiceInput.complete (SimpleVoiceInput.resultS2 cfg now s rs)).1,
         [SVEvent.transcriptEv
            (jsTrim ((SimpleVoiceInput.resultS1 s rs).finalTranscript
              ++ SimpleVoiceInput.interimOf rs))
            (SimpleVoiceInput.newFinalOf rs ≠ "")]
           ++ (SimpleVoiceInput.complete (SimpleVoiceInput.resultS2 cfg now s rs)).2) := by
  simp only [SimpleVoiceInput.onresult]
  rw [resultS2_finalTranscript, if_pos hlen]

theorem complete_fst_of_listening (x : SimpleVoiceState) (hx : x.isListening = true) :
    (SimpleVoiceInput.complete x).1
      = SimpleVoiceInput.clearTimers { x with isListening := false } := by
  unfold SimpleVoiceInput.complete
  rw [if_neg (by simp [hx])]

/-- C9: in `SimpleVoiceInput`, whenever a recognition result event leaves
the accumulated trimmed final transcript longer than 5 characters, the
session finalizes immediately inside the `onresult` handler: listening
stops, both timers are cleared, the recognizer is stopped, and the
completion callback fires with the trimmed transcript — without waiting for
the silence timeout, the overall timeout, or the platform end event. -/
theorem c9_long_transcript_autocompletes (cfg : SimpleVoiceConfig) (now : ℕ)
    (s : SimpleVoiceState) (rs : List (String × Bool))
    (hs : s.isListening = true)
    (hlen : 5 < (jsTrim (updatedFinal s rs)).length) :
    ((SimpleVoiceInput.onresult cfg now s rs).1.isListening = false)
    ∧ ((SimpleVoiceInput.onresult cfg now s rs).1.silenceDeadline = none)
    ∧ ((SimpleVoiceInput.onresult cfg now s rs).1.timeoutDeadline = none)
    ∧ SVEvent.recStop ∈ (SimpleVoiceInput.onresult cfg now s rs).2
    ∧ SVEvent.completeEv (jsTrim (updatedFinal s rs))
        ∈ (SimpleVoiceInput.onresult cfg now s rs).2 := by
  have h2l : (SimpleVoiceInput.resultS2 cfg now s rs).isListening = true := by
    rw [resultS2_isListening]
    exact hs
  have hne : jsTrim (updatedFinal s rs) ≠ "" :=
    string_ne_empty_of_length_pos (Nat.lt_of_lt_of_le (Nat.zero_lt_succ 4) (Nat.le_of_lt hlen))
  rw [onresult_autocomplete_eq cfg now s rs hlen]
  have hev : (SimpleVoiceInput.complete (SimpleVoiceInput.resultS2 cfg now s rs)).2
      = [SVEvent.recStop]
        ++ (if jsTrim (updatedFinal s rs) ≠ "" then
              [SVEvent.completeEv (jsTrim (updatedFinal s rs))]
            else [])
        ++ [SVEvent.stopEv] := by
    rw [complete_events_of_listening _ h2l, resultS2_finalTranscript]
  have hst := complete_fst_of_listening _ h2l
  refine ⟨?_, ?_, ?_, ?_, ?_⟩
  · rw [hst]
    rfl
  · rw [hst]
    rfl
  · rw [hst]
    rfl
  · show SVEvent.recStop ∈ _ ++ (SimpleVoiceInput.complete (SimpleVoiceInput.resultS2 cfg now s rs)).2
    rw [hev]
    simp
  · show SVEvent.completeEv (jsTrim (updatedFinal s rs))
        ∈ _ ++ (SimpleVoiceInput.complete (SimpleVoiceInput.resultS2 cfg now s rs)).2
    rw [hev, if_pos hne]
    simp

/-- Witness for C9: one final result fragment `"hello world"` on a fresh
listening session leaves a 11-character trimmed transcript, so the handler
finalizes at once. -/
theorem c9_long_transcript_autocompletes_witness :
    (({ isListening := true, finalTranscript := "", timeoutDeadline := some 8000,
        silenceDeadline := some 2000 } : SimpleVoiceState).isListening = true
      ∧ 5 < (jsTrim (updatedFinal
          { isListening := true, finalTranscript := "", timeoutDeadline := some 8000,
            silenceDeadline := some 2000 } [("hello world", true)])).length)
    ∧ ((SimpleVoiceInput.onresult ⟨"en-US", 8000, 2000⟩ 500
          { isListening := true, finalTranscript := "", timeoutDeadline := some 8000,
            silenceDeadline := some 2000 } [("hello world", true)]).1.isListening = false)
    ∧ SVEvent.completeEv (jsTrim (updatedFinal
          { isListening := true, finalTranscript := "", timeoutDeadline := some 8000,
            silenceDeadline := some 2000 } [("hello world", true)]))
        ∈ (SimpleVoiceInput.onresult ⟨"en-US", 8000, 2000⟩ 500
            { isListening := true, finalTranscript := "", timeoutDeadline := some 8000,
              silenceDeadline := some 2000 } [("hello world", true)]).2 := by
  have h := c9_long_transcript_autocompletes ⟨"en-US", 8000, 2000⟩ 500
    { isListening := true, finalTranscript := "", timeoutDeadline := some 8000,
      silenceDeadline := some 2000 } [("hello world", true)] rfl (by decide)
  exact ⟨⟨rfl, by decide⟩, h.1, h.2.2.2.2⟩

/-- Status carried by a `statusChange` event, if any. -/
def statusOf : IEvent → Option IStatus
  | .statusChange st => some st
  | _ => none

namespace InterruptibleVoiceInput

/-- The statuses delivered to the `onStatusChange` callback by a sequence of
internal `updateStatus` calls, in delivery order. -/
def emittedStatuses (s : IState) : List IStatus → List IStatus
  | [] => []
  | st :: rest =>
    ((updateStatus s st).2.filterMap statusOf)
      ++ emittedStatuses (updateStatus s st).1 rest

end InterruptibleVoiceInput

theorem emittedStatuses_chain_cons :
    ∀ (l : List IStatus) (s : IState),
      List.Chain' (fun a b => a ≠ b)
        (s.currentStatus :: InterruptibleVoiceInput.emittedStatuses s l) := by
  intro l
  induction l with
  | nil =>
    intro s
    exact List.chain'_singleton _
  | cons st rest ih =>
    intro s
    show List.Chain' _ (s.currentStatus
      :: (((InterruptibleVoiceInput.updateStatus s st).2.filterMap statusOf)
          ++ InterruptibleVoiceInput.emittedStatuses
              (InterruptibleVoiceInput.updateStatus s st).1 rest))
    unfold InterruptibleVoiceInput.updateStatus
    by_cases h : s.currentStatus ≠ st
    · rw [if_pos h]
      show List.Chain' _ (s.currentStatus :: st
        :: InterruptibleVoiceInput.emittedStatuses
            { s with currentStatus := st } rest)
      exact List.chain'_cons.2 ⟨h, ih { s with currentStatus := st }⟩
    · rw [if_neg h]
      show List.Chain' _ (s.currentStatus
        :: InterruptibleVoiceInput.emittedStatuses s rest)
      exact ih s

/-- C10: `InterruptibleVoiceInput`'s status-change callback fires only on
genuine state changes — for every sequence of internal status updates, no
two consecutive emitted status events carry the same value (an update to
the already-current status emits nothing). -/
theorem c10_status_change_no_duplicates (s : IState) (l : List IStatus) :
    List.Chain' (fun a b => a ≠ b) (InterruptibleVoiceInput.emittedStatuses s l) :=
  (emittedStatuses_chain_cons l s).tail

namespace InterruptibleVoiceInput

/-- A sequence of timestamped `onresult` events (time, result slice) applied
to the session in order. -/
def runOnresults (cfg : InterruptibleVoiceConfig) (s : IState) :
    List (ℕ × List (String × Bool)) → IState
  | [] => s
  | e :: rest => runOnresults cfg (onresult cfg e.1 s e.2) rest

end InterruptibleVoiceInput

theorem getLastD_indep {α : Type} :
    ∀ (l : List α) (a b : α), l ≠ [] → l.getLastD a = l.getLastD b
  | [], _, _, h => absurd rfl h
  | [_], _, _, _ => rfl
  | _ :: _ :: _, _, _, _ => rfl

theorem onresult_silenceDeadline (cfg : InterruptibleVoiceConfig) (now : ℕ)
    (s : IState) (rs : List (String × Bool)) :
    (InterruptibleVoiceInput.onresult cfg now s rs).silenceDeadline
      = some (now + cfg.silenceTimeout) := by
  unfold InterruptibleVoiceInput.onresult InterruptibleVoiceInput.resetSilenceTimer
  rfl

theorem runOnresults_deadline (cfg : InterruptibleVoiceConfig) :
    ∀ (evs : List (ℕ × List (String × Bool))) (s : IState), evs ≠ [] →
      (InterruptibleVoiceInput.runOnresults cfg s evs).silenceDeadline
        = some ((evs.getLastD (0, [])).1 + cfg.silenceTimeout) := by
  intro evs
  induction evs with
  | nil => intro s h; exact absurd rfl h
  | cons e rest ih =>
    intro s _
    show (InterruptibleVoiceInput.runOnresults cfg
        (InterruptibleVoiceInput.onresult cfg e.1 s e.2) rest).silenceDeadline = _
    cases rest with
    | nil =>
      show (InterruptibleVoiceInput.onresult cfg e.1 s e.2).silenceDeadline = _
      rw [onresult_silenceDeadline]
      rfl
    | cons f rest2 =>
      rw [ih (InterruptibleVoiceInput.onresult cfg e.1 s e.2) (by simp)]
      rfl

theorem chain_fst_le_getLastD :
    ∀ (l : List (ℕ × List (String × Bool))),
      List.Chain' (fun a b => a.1 ≤ b.1) l →
      ∀ x ∈ l, x.1 ≤ (l.getLastD (0, [])).1 := by
  intro l
  induction l with
  | nil => intro _ x hx; cases hx
  | cons e rest ih =>
    intro hch x hx
    cases rest with
    | nil =>
      rcases List.mem_singleton.1 hx with rfl
      exact le_refl _
    | cons f rest2 =>
      have hef : e.1 ≤ f.1 := (List.chain'_cons.1 hch).1
      have hch2 : List.Chain' (fun a b => a.1 ≤ b.1) (f :: rest2) :=
        (List.chain'_cons.1 hch).2
      rw [List.getLastD_cons, getLastD_indep (f :: rest2) e (0, []) (by simp)]
      rcases List.mem_cons.1 hx with rfl | hx2
      · exact le_trans hef (ih hch2 f (List.mem_cons_self _ _))
      · exact ih hch2 x hx2

theorem onresult_no_autocomplete_eq (cfg : SimpleVoiceConfig) (now : ℕ)
    (s : SimpleVoiceState) (rs : List (String × Bool))
    (hlen : ¬ 5 < (jsTrim (updatedFinal s rs)).length) :
    SimpleVoiceInput.onresult cfg now s rs
      = (SimpleVoiceInput.resultS2 cfg now s rs,
         [SVEvent.transcriptEv
            (jsTrim ((SimpleVoiceInput.resultS1 s rs).finalTranscript
              ++ SimpleVoiceInput.interimOf rs))
            (SimpleVoiceInput.newFinalOf rs ≠ "")]) := by
  simp only [SimpleVoiceInput.onresult]
  rw [resultS2_finalTranscript, if_neg hlen]

/-- C7: every partial or final transcript event restarts the silence
countdown to `silenceTimeout`, so that after a sequence of transcript
events the pending silence-based finalize fires exactly `silenceTimeout`
after the last event — strictly later than every event.  In
`InterruptibleVoiceInput` the reset is unconditional; in `SimpleVoiceInput`
the handler resets the countdown whenever the event carries any new text
and the long-transcript shortcut does not fire first. -/
theorem c7_silence_timer_resets (cfg : InterruptibleVoiceConfig)
    (evs : List (ℕ × List (String × Bool))) (s : IState)
    (hne : evs ≠ [])
    (hsorted : List.Chain' (fun a b => a.1 ≤ b.1) evs)
    (hT : 0 < cfg.silenceTimeout) :
    (InterruptibleVoiceInput.runOnresults cfg s evs).silenceDeadline
      = some ((evs.getLastD (0, [])).1 + cfg.silenceTimeout)
    ∧ (∀ e ∈ evs, e.1 < (evs.getLastD (0, [])).1 + cfg.silenceTimeout)
    ∧ (∀ (scfg : SimpleVoiceConfig) (now : ℕ) (s2 : SimpleVoiceState)
        (rs : List (String × Bool)),
        (SimpleVoiceInput.newFinalOf rs ≠ "" ∨ SimpleVoiceInput.interimOf rs ≠ "") →
        ¬ 5 < (jsTrim (updatedFinal s2 rs)).length →
        (SimpleVoiceInput.onresult scfg now s2 rs).1.silenceDeadline
          = some (now + scfg.silenceTimeout)) := by
  refine ⟨runOnresults_deadline cfg evs s hne, ?_, ?_⟩
  · intro e he
    have := chain_fst_le_getLastD evs hsorted e he
    omega
  · intro scfg now s2 rs hr hlen
    rw [onresult_no_autocomplete_eq scfg now s2 rs hlen]
    show (SimpleVoiceInput.resultS2 scfg now s2 rs).silenceDeadline = _
    unfold SimpleVoiceInput.resultS2
    rw [if_pos hr]
    rfl

/-- Witness for C7: with `silenceTimeout = 2000` and transcript fragments
at t = 0, 500 and 1800 ms, the pending silence finalize is scheduled for
t = 3800 ms — 2000 ms after the last fragment and later than every
fragment. -/
theorem c7_silence_timer_resets_witness :
    (([(0, [("a", false)]), (500, [("ab", false)]), (1800, [("abc", false)])]
        : List (ℕ × List (String × Bool))) ≠ []
      ∧ List.Chain' (fun a b => a.1 ≤ b.1)
          ([(0, [("a", false)]), (500, [("ab", false)]), (1800, [("abc", false)])]
            : List (ℕ × List (String × Bool)))
      ∧ 0 < 2000)
    ∧ (InterruptibleVoiceInput.runOnresults ⟨"en-US", 2000, 2/100, 15/1000⟩
        { isActive := true, isListening := true, isProcessing := false,
          currentStatus := IStatus.listening, finalTranscript := "",
          silenceDeadline := none }
        [(0, [("a", false)]), (500, [("ab", false)]), (1800, [("abc", false)])]
       ).silenceDeadline = some 3800 := by
  have h := c7_silence_timer_resets ⟨"en-US", 2000, 2/100, 15/1000⟩
    [(0, [("a", false)]), (500, [("ab", false)]), (1800, [("abc", false)])]
    { isActive := true, isListening := true, isProcessing := false,
      currentStatus := IStatus.listening, finalTranscript := "",
      silenceDeadline := none }
    (by simp) (by simp) (by decide)
  refine ⟨⟨by simp, by simp, by decide⟩, ?_⟩
  rw [h.1]
  rfl

/-! ## Barge-in: InterruptibleVoiceInput.detectInterrupt wired to TTSService.stop -/

/-- Runtime playback state of `TTSService`: whether the platform synthesizer
is speaking and the utterance currently held by the service. -/
structure TTSState where
  speaking : Bool
  currentUtterance : Option String

/-- `TTSService.stop()`: `synthesis.cancel()` discards the current and all
queued utterances immediately and `currentUtterance` is cleared. -/
def ttsStop (t : TTSState) : TTSState :=
  { t with speaking := false, currentUtterance := none }

/-- The engine as seen by the barge-in path: the interruptible voice-input
state together with the speech-synthesis state it cancels. -/
structure EngineState where
  voice : IState
  tts : TTSState

/-- One audio sample of the `detectInterrupt` loop, with the
`onUserSpeakingDetected` callback wired (as the modal does for playback) to
`TTSService.stop`: when the normalized volume exceeds the interrupt
sensitivity while neither listening nor processing, the engine first signals
the barge-in (cancelling playback) and only then starts the new recognition
session. -/
def detectInterruptStep (cfg : InterruptibleVoiceConfig) (now : ℕ)
    (es : EngineState) (vol : ℚ) : EngineState × List IEvent :=
  if es.voice.isActive = false then (es, [])
  else if cfg.interruptSensitivity < vol
      ∧ es.voice.isListening = false ∧ es.voice.isProcessing = false then
    ({ voice := (InterruptibleVoiceInput.startUserListening cfg now es.voice).1,
       tts := ttsStop es.tts },
     IEvent.userSpeakingDetected :: IEvent.ttsCancel
       :: (InterruptibleVoiceInput.startUserListening cfg now es.voice).2)
  else (es, [])

/-- C3: on barge-in (audio above the interrupt threshold while the engine is
active and neither listening nor processing), the engine emits exactly the
trace `[userSpeakingDetected, ttsCancel, userSpeechStart, recStart]`: the
playback-cancel signal strictly precedes the start of the new recognition
session, and when the recognition session starts the playback state is
already cancelled (not speaking, no current utterance), so no stale playback
runs concurrently with the new session. -/
theorem c3_barge_in_cancels_before_listening (cfg : InterruptibleVoiceConfig)
    (now : ℕ) (es : EngineState) (vol : ℚ)
    (hact : es.voice.isActive = true)
    (hlis : es.voice.isListening = false)
    (hproc : es.voice.isProcessing = false)
    (hvol : cfg.interruptSensitivity < vol) :
    (detectInterruptStep cfg now es vol).2
      = [IEvent.userSpeakingDetected, IEvent.ttsCancel,
         IEvent.userSpeechStart, IEvent.recStart]
    ∧ List.indexOf IEvent.ttsCancel (detectInterruptStep cfg now es vol).2
        < List.indexOf IEvent.recStart (detectInterruptStep cfg now es vol).2
    ∧ (detectInterruptStep cfg now es vol).1.tts.speaking = false
    ∧ (detectInterruptStep cfg now es vol).1.tts.currentUtterance = none
    ∧ (detectInterruptStep cfg now es vol).1.voice.silenceDeadline
        = some (now + cfg.silenceTimeout) := by
  have hstep : detectInterruptStep cfg now es vol
      = ({ voice := (InterruptibleVoiceInput.startUserListening cfg now es.voice).1,
           tts := ttsStop es.tts },
         IEvent.userSpeakingDetected :: IEvent.ttsCancel
           :: (InterruptibleVoiceInput.startUserListening cfg now es.voice).2) := by
    unfold detectInterruptStep
    rw [if_neg (by simp [hact]), if_pos ⟨hvol, hlis, hproc⟩]
  have hsul : InterruptibleVoiceInput.startUserListening cfg now es.voice
      = (InterruptibleVoiceInput.resetSilenceTimer cfg now es.voice,
         [IEvent.userSpeechStart, IEvent.recStart]) := by
    unfold InterruptibleVoiceInput.startUserListening
    rw [if_neg (by simp [hlis])]
  have htr : (detectInterruptStep cfg now es vol).2
      = [IEvent.userSpeakingDetected, IEvent.ttsCancel,
         IEvent.userSpeechStart, IEvent.recStart] := by
    rw [hstep, hsul]
  refine ⟨htr, ?_, ?_, ?_, ?_⟩
  · rw [htr]
    decide
  · rw [hstep]
    rfl
  · rw [hstep]
    rfl
  · rw [hstep, hsul]
    rfl

/-- Witness for C3 at a concrete speaking-state engine with volume `2/100`
above an interrupt sensitivity of `15/1000`. -/
theorem c3_barge_in_cancels_before_listening_witness :
    ((⟨⟨true, false, false, IStatus.detecting, "", none⟩,
        ⟨true, some "reply"⟩⟩ : EngineState).voice.isActive = true
      ∧ (15 : ℚ)/1000 < 2/100)
    ∧ (detectInterruptStep ⟨"en-US", 2000, 2/100, 15/1000⟩ 7000
        ⟨⟨true, false, false, IStatus.detecting, "", none⟩, ⟨true, some "reply"⟩⟩
        (2/100)).2
      = [IEvent.userSpeakingDetected, IEvent.ttsCancel,
         IEvent.userSpeechStart, IEvent.recStart]
    ∧ (detectInterruptStep ⟨"en-US", 2000, 2/100, 15/1000⟩ 7000
        ⟨⟨true, false, false, IStatus.detecting, "", none⟩, ⟨true, some "reply"⟩⟩
        (2/100)).1.tts.speaking = false := by
  have h := c3_barge_in_cancels_before_listening ⟨"en-US", 2000, 2/100, 15/1000⟩ 7000
    ⟨⟨true, false, false, IStatus.detecting, "", none⟩, ⟨true, some "reply"⟩⟩
    (2/100) rfl rfl rfl (by norm_num)
  exact ⟨⟨rfl, by norm_num⟩, h.1, h.2.2.1⟩

/-! ## VoiceActivityDetection (src/AITutor/Services/VoiceActivityDetection.ts) -/

/-- State of the voice-activity monitor relevant to voice-start triggering. -/
structure VADState where
  isActive : Bool
  isListening : Bool
deriving DecidableEq

/-- Inputs seen by the monitor between triggers: an audio-energy sample of
the `detectVoice` animation-frame loop, or the end of the recognition
session started by a previous trigger (`handleVoiceEnd`/`stopListening`,
which clears `isListening`). -/
inductive VADIn where
  | sample : ℚ → VADIn
  | sessionEnd : VADIn
deriving DecidableEq

/-- Whether an input is an audio-energy sample. -/
def isSample : VADIn → Bool
  | .sample _ => true
  | .sessionEnd => false

/-- A sample input is above the given threshold (session ends carry no
level, so they satisfy this vacuously). -/
def aboveThresholdIn (th : ℚ) : VADIn → Prop
  | .sample v => th < v
  | .sessionEnd => True

namespace VoiceActivityDetection

/-- One `detectVoice` tick of `startVoiceDetection`: when the normalized
volume exceeds the threshold while not listening, `startListening()` runs —
it sets `isListening` and fires `onVoiceStart` (counted as 1). -/
def detectVoiceStep (th : ℚ) (s : VADState) (vol : ℚ) : VADState × ℕ :=
  if s.isActive = false then (s, 0)
  else if th < vol ∧ s.isListening = false then
    ({ s with isListening := true }, 1)
  else (s, 0)

/-- Apply one input to the monitor. -/
def applyInput (th : ℚ) (s : VADState) : VADIn → VADState × ℕ
  | .sample v => detectVoiceStep th s v
  | .sessionEnd => ({ s with isListening := false }, 0)

/-- Run the monitor over an input sequence, counting fired `onVoiceStart`
signals. -/
def runVAD (th : ℚ) (s : VADState) : List VADIn → VADState × ℕ
  | [] => (s, 0)
  | i :: rest =>
    ((runVAD th (applyInput th s i).1 rest).1,
     (applyInput th s i).2 + (runVAD th (applyInput th s i).1 rest).2)

end VoiceActivityDetection

theorem detectVoiceStep_listening (th : ℚ) (s : VADState) (v : ℚ)
    (h : s.isListening = true) :
    VoiceActivityDetection.detectVoiceStep th s v = (s, 0) := by
  unfold VoiceActivityDetection.detectVoiceStep
  by_cases ha : s.isActive = false
  · rw [if_pos ha]
  · rw [if_neg ha, if_neg (by simp [h])]

theorem runVAD_listening (th : ℚ) :
    ∀ (ins : List VADIn) (s : VADState),
      (∀ i ∈ ins, isSample i = true) → s.isListening = true →
      VoiceActivityDetection.runVAD th s ins = (s, 0) := by
  intro ins
  induction ins with
  | nil => intro s _ _; rfl
  | cons i rest ih =>
    intro s hall hl
    cases i with
    | sample v =>
      show ((VoiceActivityDetection.runVAD th
          (VoiceActivityDetection.detectVoiceStep th s v).1 rest).1,
        (VoiceActivityDetection.detectVoiceStep th s v).2
          + (VoiceActivityDetection.runVAD th
              (VoiceActivityDetection.detectVoiceStep th s v).1 rest).2) = (s, 0)
      rw [detectVoiceStep_listening th s v hl]
      rw [ih s (fun j hj => hall j (List.mem_cons_of_mem _ hj)) hl]
      rfl
    | sessionEnd =>
      exact absurd (hall VADIn.sessionEnd (List.mem_cons_self _ _)) (by simp [isSample])

/-- C4 (amended): over any run of audio-energy samples with no intervening
session end, the monitor raises `onVoiceStart` at most once, and never while
`isListening` is still set from a previous trigger.  Re-arming is controlled
by the `isListening` flag — cleared when the recognition session ends — not
by the level dropping below the threshold, so a fresh trigger can occur as
soon as the session ends even if the level stayed above the threshold
throughout. -/
theorem c4_voice_start_once_per_run (th : ℚ) (s : VADState) (ins : List VADIn)
    (hsamples : ∀ i ∈ ins, isSample i = true) :
    (VoiceActivityDetection.runVAD th s ins).2 ≤ 1
    ∧ (s.isListening = true → (VoiceActivityDetection.runVAD th s ins).2 = 0) := by
  refine ⟨?_, fun hl => by rw [runVAD_listening th ins s hsamples hl]⟩
  induction ins generalizing s with
  | nil => exact Nat.zero_le _
  | cons i rest ih =>
    cases i with
    | sample v =>
      have hrest : ∀ j ∈ rest, isSample j = true :=
        fun j hj => hsamples j (List.mem_cons_of_mem _ hj)
      show (VoiceActivityDetection.detectVoiceStep th s v).2
          + (VoiceActivityDetection.runVAD th
              (VoiceActivityDetection.detectVoiceStep th s v).1 rest).2 ≤ 1
      by_cases hl : s.isListening = true
      · rw [detectVoiceStep_listening th s v hl]
        rw [runVAD_listening th rest s hrest hl]
        simp
      · by_cases ha : s.isActive = false
        · have hd : VoiceActivityDetection.detectVoiceStep th s v = (s, 0) := by
            unfold VoiceActivityDetection.detectVoiceStep
            rw [if_pos ha]
          rw [hd]
          simpa using ih s hrest
        · by_cases hv : th < v
          · have hd : VoiceActivityDetection.detectVoiceStep th s v
                = ({ s with isListening := true }, 1) := by
              unfold VoiceActivityDetection.detectVoiceStep
              rw [if_neg ha, if_pos ⟨hv, by simpa using hl⟩]
            rw [hd]
            rw [runVAD_listening th rest { s with isListening := true } hrest rfl]
            simp
          · have hd : VoiceActivityDetection.detectVoiceStep th s v = (s, 0) := by
              unfold VoiceActivityDetection.detectVoiceStep
              rw [if_neg ha, if_neg (by simp [hv])]
            rw [hd]
            simpa using ih s hrest
    | sessionEnd =>
      exact absurd (hsamples VADIn.sessionEnd (List.mem_cons_self _ _)) (by simp [isSample])

/-- Counterexample to C4 as stated: with threshold `1/100`, the level stays
at `2/100` — strictly above the threshold the whole time and never dropping
below it — yet the monitor fires `onVoiceStart` twice, because the
recognition session started by the first trigger ends in between and the
`isListening` guard re-arms immediately regardless of the level. -/
theorem c4_voice_start_once_counterexample :
    (VoiceActivityDetection.runVAD (1 : ℚ) ⟨true, false⟩
        [VADIn.sample (2 : ℚ), VADIn.sessionEnd, VADIn.sample (2 : ℚ)]).2 = 2
    ∧ ∀ i ∈ ([VADIn.sample (2 : ℚ), VADIn.sessionEnd, VADIn.sample (2 : ℚ)] : List VADIn),
        aboveThresholdIn (1 : ℚ) i := by
  refine ⟨by decide, ?_⟩
  intro i hi
  fin_cases hi
  · norm_num [aboveThresholdIn]
  · exact trivial
  · norm_num [aboveThresholdIn]

/-- Witness for C4 (amended) at a run of two above-threshold samples with no
session end: at most one voice-start fires. -/
theorem c4_voice_start_once_per_run_witness :
    (∀ i ∈ ([VADIn.sample (2 : ℚ), VADIn.sample (3 : ℚ)] : List VADIn), isSample i = true)
    ∧ (VoiceActivityDetection.runVAD (1 : ℚ) ⟨true, false⟩
        [VADIn.sample (2 : ℚ), VADIn.sample (3 : ℚ)]).2 ≤ 1 :=
  ⟨by decide,
   (c4_voice_start_once_per_run (1 : ℚ) ⟨true, false⟩
      [VADIn.sample (2 : ℚ), VADIn.sample (3 : ℚ)] (by decide)).1⟩

/-! ## ReliableVoiceInput (src/AITutor/Services/ReliableVoiceInput.ts) -/

/-- Mutable state of a `ReliableVoiceInput` instance. -/
structure RVState where
  isListening : Bool
  isEnabled : Bool
  timeoutDeadline : Option ℕ
deriving DecidableEq

/-- Callback invocations and recognizer commands issued by
`ReliableVoiceInput`. -/
inductive RVEvent where
  | listeningStart : RVEvent
  | listeningEnd : RVEvent
  | speechResult : String → RVEvent
  | errorEv : String → RVEvent
  | recStart : RVEvent
  | recStop : RVEvent
  | recAbort : RVEvent
deriving DecidableEq

/-- Whether an event starts a platform recognition attempt. -/
def isRecStartEv : RVEvent → Bool
  | .recStart => true
  | _ => false

namespace ReliableVoiceInput

/-- `cleanup()`: clear the listening flag, fire `onListeningEnd` and cancel
the timeout timer. -/
def cleanup (s : RVState) : RVState × List RVEvent :=
  ({ s with isListening := false, timeoutDeadline := none }, [RVEvent.listeningEnd])

/-- `handleError(error)`: cleanup, then on `"not-allowed"` disable the
engine (`isEnabled = false`) and report a permission message; other error
codes only report. -/
def handleError (s : RVState) (err : String) : RVState × List RVEvent :=
  if err = "not-allowed" then
    ({ (cleanup s).1 with isEnabled := false },
     (cleanup s).2 ++ [RVEvent.errorEv
       "Microphone access denied. Please enable microphone permissions in your browser settings."])
  else if err = "no-speech" then
    ((cleanup s).1,
     (cleanup s).2 ++ [RVEvent.errorEv
       "No speech detected. Please try speaking louder or closer to the microphone."])
  else ((cleanup s).1, (cleanup s).2 ++ [RVEvent.errorEv err])

/-- `startListening()`: refused while disabled, unsupported, or already
listening; otherwise starts the platform recognizer. -/
def startListening (supported : Bool) (s : RVState) : RVState × List RVEvent :=
  if s.isEnabled = false ∨ supported = false ∨ s.isListening = true then (s, [])
  else (s, [RVEvent.recStart])

/-- `handleResult(transcript)`: cleanup and report the final transcript. -/
def handleResult (s : RVState) (t : String) : RVState × List RVEvent :=
  ((cleanup s).1, (cleanup s).2 ++ [RVEvent.speechResult t])

/-- `recognition.onstart`: mark listening, fire `onListeningStart` and arm
the timeout timer. -/
def onstart (maxDuration now : ℕ) (s : RVState) : RVState × List RVEvent :=
  ({ s with isListening := true, timeoutDeadline := some (now + maxDuration) },
   [RVEvent.listeningStart])

/-- `stop()`: request a graceful recognizer stop while listening. -/
def stop (s : RVState) : RVState × List RVEvent :=
  if s.isListening = false then (s, []) else (s, [RVEvent.recStop])

/-- `abort()`: cleanup and abort the recognizer. -/
def abort (s : RVState) : RVState × List RVEvent :=
  ((cleanup s).1, (cleanup s).2 ++ [RVEvent.recAbort])

end ReliableVoiceInput

/-- The operations that can run without an explicit user action: public
start/stop/abort calls and the platform recognizer callbacks.  `enable()`
— the explicit user action that sets `isEnabled` back to `true` — is
deliberately not among them. -/
inductive RVOp where
  | startOp : Bool → RVOp
  | stopOp : RVOp
  | abortOp : RVOp
  | startedOp : ℕ → ℕ → RVOp
  | resultOp : String → RVOp
  | endOp : RVOp
  | errorOp : String → RVOp

namespace ReliableVoiceInput

/-- Apply one automatic operation. -/
def applyOp (s : RVState) : RVOp → RVState × List RVEvent
  | .startOp sup => startListening sup s
  | .stopOp => stop s
  | .abortOp => abort s
  | .startedOp d n => onstart d n s
  | .resultOp t => handleResult s t
  | .endOp => cleanup s
  | .errorOp e => handleError s e

/-- Run a sequence of automatic operations, collecting all events. -/
def runOps (s : RVState) : List RVOp → RVState × List RVEvent
  | [] => (s, [])
  | op :: rest =>
    ((runOps (applyOp s op).1 rest).1,
     (applyOp s op).2 ++ (runOps (applyOp s op).1 rest).2)

end ReliableVoiceInput

theorem applyOp_disabled (s : RVState) (op : RVOp) (h : s.isEnabled = false) :
    (ReliableVoiceInput.applyOp s op).1.isEnabled = false
    ∧ (ReliableVoiceInput.applyOp s op).2.countP isRecStartEv = 0 := by
  cases op with
  | startOp sup =>
    show (ReliableVoiceInput.startListening sup s).1.isEnabled = false
      ∧ (ReliableVoiceInput.startListening sup s).2.countP isRecStartEv = 0
    unfold ReliableVoiceInput.startListening
    rw [if_pos (Or.inl h)]
    exact ⟨h, rfl⟩
  | stopOp =>
    show (ReliableVoiceInput.stop s).1.isEnabled = false
      ∧ (ReliableVoiceInput.stop s).2.countP isRecStartEv = 0
    unfold ReliableVoiceInput.stop
    by_cases hl : s.isListening = false
    · rw [if_pos hl]
      exact ⟨h, rfl⟩
    · rw [if_neg hl]
      exact ⟨h, rfl⟩
  | abortOp => exact ⟨h, rfl⟩
  | startedOp d n => exact ⟨h, rfl⟩
  | resultOp t => exact ⟨h, rfl⟩
  | endOp => exact ⟨h, rfl⟩
  | errorOp e =>
    show (ReliableVoiceInput.handleError s e).1.isEnabled = false
      ∧ (ReliableVoiceInput.handleError s e).2.countP isRecStartEv = 0
    unfold ReliableVoiceInput.handleError
    by_cases h1 : e = "not-allowed"
    · rw [if_pos h1]
      exact ⟨rfl, rfl⟩
    · rw [if_neg h1]
      by_cases h2 : e = "no-speech"
      · rw [if_pos h2]
        exact ⟨h, rfl⟩
      · rw [if_neg h2]
        exact ⟨h, rfl⟩

theorem runOps_disabled : ∀ (ops : List RVOp) (s : RVState), s.isEnabled = false →
    (ReliableVoiceInput.runOps s ops).1.isEnabled = false
    ∧ (ReliableVoiceInput.runOps s ops).2.countP isRecStartEv = 0 := by
  intro ops
  induction ops with
  | nil => intro s h; exact ⟨h, rfl⟩
  | cons op rest ih =>
    intro s h
    have h1 := applyOp_disabled s op h
    have h2 := ih (ReliableVoiceInput.applyOp s op).1 h1.1
    refine ⟨h2.1, ?_⟩
    show ((ReliableVoiceInput.applyOp s op).2
      ++ (ReliableVoiceInput.runOps (ReliableVoiceInput.applyOp s op).1 rest).2).countP
        isRecStartEv = 0
    rw [List.countP_append, h1.2, h2.2]

/-- C5: a `"not-allowed"` (PermissionDenied) recognition error transitions
the engine to the disabled state (`isEnabled = false`); from a disabled
state every `startListening` call is refused outright, and no sequence of
automatic operations (starts, stops, aborts, recognizer callbacks, further
errors — everything except the explicit user action `enable()`) ever
re-enables the engine or starts another platform recognition attempt. -/
theorem c5_permission_denied_disables (s : RVState) (ops : List RVOp) :
    ((ReliableVoiceInput.handleError s "not-allowed").1.isEnabled = false)
    ∧ (∀ sup : Bool,
        ReliableVoiceInput.startListening sup
            (ReliableVoiceInput.handleError s "not-allowed").1
          = ((ReliableVoiceInput.handleError s "not-allowed").1, []))
    ∧ (s.isEnabled = false →
        (ReliableVoiceInput.runOps s ops).1.isEnabled = false
        ∧ (ReliableVoiceInput.runOps s ops).2.countP isRecStartEv = 0) := by
  have hdis : (ReliableVoiceInput.handleError s "not-allowed").1.isEnabled = false := by
    unfold ReliableVoiceInput.handleError
    rw [if_pos rfl]
  refine ⟨hdis, ?_, fun h => runOps_disabled ops s h⟩
  intro sup
  unfold ReliableVoiceInput.startListening
  rw [if_pos (Or.inl hdis)]

/-- Witness for C5 at a disabled engine and a sequence of automatic
operations including a supported start attempt. -/
theorem c5_permission_denied_disables_witness :
    ((ReliableVoiceInput.handleError ⟨false, false, none⟩ "not-allowed").1.isEnabled = false)
    ∧ ((⟨false, false, none⟩ : RVState).isEnabled = false)
    ∧ (ReliableVoiceInput.runOps ⟨false, false, none⟩
        [RVOp.startOp true, RVOp.errorOp "network", RVOp.endOp]).1.isEnabled = false
    ∧ (ReliableVoiceInput.runOps ⟨false, false, none⟩
        [RVOp.startOp true, RVOp.errorOp "network", RVOp.endOp]).2.countP isRecStartEv = 0 := by
  have h := c5_permission_denied_disables ⟨false, false, none⟩
    [RVOp.startOp true, RVOp.errorOp "network", RVOp.endOp]
  exact ⟨h.1, rfl, (h.2.2 rfl).1, (h.2.2 rfl).2⟩
